import Mathlib

/-!
Verification of the `Option` strategy module (`src/src/option.rs`) of a
property-based testing library.

The module builds `Option<T>` generators on top of three collaborators whose
code is not part of the source fragment: the two-branch weighted union
(`TupleUnion` / `TupleUnionValueTree`), the lazy map combinator
(`statics::Map`) and the probability-to-weight conversion (`float_to_weight`).
Those collaborators are modelled from the specification (their doc comments
say so); everything else is translated directly from the source.
-/

namespace PropOption

variable {σ V : Type} {α : Type}

/-- Interface of a value tree (the `ValueTree` trait): a current value, one
shrink step `simplify`, and one reverse step `complicate`, each returning the
new tree state together with whether anything changed. -/
structure VT (σ V : Type) where
  current : σ → V
  simplify : σ → σ × Bool
  complicate : σ → σ × Bool

/-- An inner strategy: a deterministic generation function threading an entropy
state (modelled as `Nat`), plus the value-tree interface of the trees it
produces. -/
structure InnerStrategy (σ V : Type) where
  gen : Nat → σ × Nat
  tree : VT σ V

/-- Embeds `NoneStrategy::current` (src/src/option.rs line 47): always `None`.
The tree state carries no data (`PhantomData` only), modelled as `Unit`. -/
def NoneStrategy_current (V : Type) : Unit → Option V := fun _ => none

/-- Embeds `NoneStrategy::simplify` (src/src/option.rs line 48): `false`,
state untouched. -/
def NoneStrategy_simplify : Unit → Unit × Bool := fun u => (u, false)

/-- Embeds `NoneStrategy::complicate` (src/src/option.rs line 49): `false`,
state untouched. -/
def NoneStrategy_complicate : Unit → Unit × Bool := fun u => (u, false)

/-- Embeds `NoneStrategy::new_value` (src/src/option.rs lines 40-42):
`Ok(*self)` — always succeeds, ignores the runner, consumes no entropy. -/
def NoneStrategy_new_value : Nat → Except Unit Unit × Nat :=
  fun e => (Except.ok (), e)

/-- State of an `OptionValueTree` (src/src/option.rs lines 62-68), which wraps
a `TupleUnionValueTree<(NoneStrategy<_>, Option<Map<T, WrapSome>>)>`.
Modelled from the spec: the union tree's code is not under `src/`; spec
section 4.3 gives its state machine for this two-branch instance.
`absent` is a tree generated on branch 0 (terminal, stores no inner tree);
`present inner sw b` holds the mapped inner tree, whether the branch switch to
absent is still available (`sw`), and whether the most recent change was an
inner simplify (`b`); `absentViaShrink saved` is the state after a successful
branch switch, holding the exact inner tree active before the switch. -/
inductive OptTree (σ : Type) where
  | absent
  | present (inner : σ) (switchAvailable : Bool) (innerShrunk : Bool)
  | absentViaShrink (saved : σ)
deriving DecidableEq

/-- Modelled from the spec: `current()` of the option tree (spec sections 2
and 4.3; the union tree's code is not under `src/`). On the present branch the
value is the inner tree's current wrapped by `WrapSome`
(src/src/option.rs lines 21-25): `Some(t)`. Absent states expose `None`. -/
def optCurrent (vt : VT σ V) : OptTree σ → Option V
  | OptTree.absent => none
  | OptTree.present inner _ _ => some (vt.current inner)
  | OptTree.absentViaShrink _ => none

/-- Modelled from the spec: `simplify()` of the option tree (spec section 4.3;
the union tree's code is not under `src/`). From present with the branch
switch available, switch to absent saving the inner tree untouched; with the
switch exhausted, delegate to the inner tree's simplify; absent states are
terminal. -/
def optSimplify (vt : VT σ V) : OptTree σ → OptTree σ × Bool
  | OptTree.absent => (OptTree.absent, false)
  | OptTree.present inner true _ => (OptTree.absentViaShrink inner, true)
  | OptTree.present inner false b =>
      (OptTree.present (vt.simplify inner).1 false ((vt.simplify inner).2 || b),
        (vt.simplify inner).2)
  | OptTree.absentViaShrink saved => (OptTree.absentViaShrink saved, false)

/-- Modelled from the spec: `complicate()` of the option tree (spec section
4.3; the union tree's code is not under `src/`). From absent-via-shrink it
restores the exact saved inner tree (branch switch now exhausted, no pending
inner simplify); from present it delegates to the inner tree only when the
most recent change was an inner simplify; otherwise it is a no-op returning
`false`. -/
def optComplicate (vt : VT σ V) : OptTree σ → OptTree σ × Bool
  | OptTree.absent => (OptTree.absent, false)
  | OptTree.present inner sw true =>
      (OptTree.present (vt.complicate inner).1 sw (vt.complicate inner).2,
        (vt.complicate inner).2)
  | OptTree.present inner sw false => (OptTree.present inner sw false, false)
  | OptTree.absentViaShrink saved => (OptTree.present saved false false, true)

/-- One branch of the two-branch union built by `weighted`
(src/src/option.rs lines 100-103): either the `NoneStrategy` or the
`statics::Map` of the inner strategy under `WrapSome`. -/
inductive Branch (σ V : Type) where
  | noneStrategy
  | mapWrapSome (t : InnerStrategy σ V)

/-- Configuration built by `weighted` (src/src/option.rs lines 96-104):
a `TupleUnion` over two ordered `(weight, strategy)` pairs, in source order. -/
structure OptionStrategy (σ V : Type) where
  branch0 : Nat × Branch σ V
  branch1 : Nat × Branch σ V

/-- Modelled from the spec: `float_to_weight` is called by `weighted`
(src/src/option.rs line 98) but its code is not under `src/`. Spec section
4.2: convert the probability into `(weight_some, weight_none)`, two positive
integers whose ratio matches `p / (1-p)`; the scale is an implementation
detail, so the model uses the reduced fraction: `(p.num, p.den - p.num)`.
The probability is a rational here. -/
def float_to_weight (p : ℚ) : Nat × Nat :=
  (p.num.toNat, ((p.den : ℤ) - p.num).toNat)

/-- Embeds `weighted` (src/src/option.rs lines 96-104). The construction-time
precondition (modelled from the spec, sections 4.2 and 7: fail when `p ≤ 0` or
`p ≥ 1`; the check lives in the out-of-src `float_to_weight`) is rendered as
an `Option` result: `none` is the precondition violation. -/
def weighted (p : ℚ) (t : InnerStrategy σ V) : Option (OptionStrategy σ V) :=
  if p ≤ 0 ∨ 1 ≤ p then none
  else
    some { branch0 := ((float_to_weight p).2, Branch.noneStrategy),
           branch1 := ((float_to_weight p).1, Branch.mapWrapSome t) }

/-- Embeds `of` (src/src/option.rs lines 85-87): literally `weighted(0.5, t)`. -/
def of (t : InnerStrategy σ V) : Option (OptionStrategy σ V) :=
  weighted (1/2 : ℚ) t

/-- Modelled from the spec: generating a tree from one branch. Branch 0 makes
the terminal absent tree without touching the inner strategy; branch 1 runs
the inner generator and wraps the resulting tree in a fresh present state
(branch switch available, nothing shrunk yet). -/
def genBranch (b : Branch σ V) (e : Nat) : OptTree σ × Nat :=
  match b with
  | Branch.noneStrategy => (OptTree.absent, e)
  | Branch.mapWrapSome t => (OptTree.present (t.gen e).1 true false, (t.gen e).2)

/-- Modelled from the spec: `TupleUnion` generation is not under `src/`; spec
section 2 says the union "picks one branch at generation time with probability
proportional to weight". The model consumes the entropy state once: the
remainder modulo the total weight selects the branch, the quotient is passed
on. -/
def genOptTree (cfg : OptionStrategy σ V) (e : Nat) : OptTree σ × Nat :=
  if e % (cfg.branch0.1 + cfg.branch1.1) < cfg.branch0.1 then
    genBranch cfg.branch0.2 (e / (cfg.branch0.1 + cfg.branch1.1))
  else
    genBranch cfg.branch1.2 (e / (cfg.branch0.1 + cfg.branch1.1))

/-- Whether the tree representation holds an inner value tree. In the wrapped
`TupleUnionValueTree` the second slot is `Option<Map<T, WrapSome>>`
(src/src/option.rs line 66); a tree generated absent stores nothing there. -/
def hasInner : OptTree σ → Bool
  | OptTree.absent => false
  | OptTree.present _ _ _ => true
  | OptTree.absentViaShrink _ => true

/-- No successful simplify is pending on the tree: `complicate` has nothing to
undo. -/
def noPending : OptTree σ → Bool
  | OptTree.absent => true
  | OptTree.present _ _ b => !b
  | OptTree.absentViaShrink _ => false

/-- Iterate a simplify-style step `n` times, keeping only the state. -/
def simplifySeq (f : α → α × Bool) : Nat → α → α
  | 0, s => s
  | n + 1, s => simplifySeq f n (f s).1

/-- The shrink loop "call simplify until it returns false" terminates from
state `s`: after finitely many steps a call reports no change. -/
def exhausts (f : α → α × Bool) (s : α) : Prop :=
  ∃ n, (f (simplifySeq f n s)).2 = false

/-- One observable call on a tree during the shrink search. -/
inductive Op where
  | simplify
  | complicate
deriving DecidableEq

/-- Apply one call to the option tree. -/
def step (vt : VT σ V) (s : OptTree σ) : Op → OptTree σ × Bool
  | Op.simplify => optSimplify vt s
  | Op.complicate => optComplicate vt s

/-- Values of `current()` observed after each call in `ops`. -/
def runOps (vt : VT σ V) : OptTree σ → List Op → List (Option V)
  | _, [] => []
  | s, op :: ops => optCurrent vt (step vt s op).1 :: runOps vt (step vt s op).1 ops

/-- One full run: generate a tree from entropy state `e`, then observe
`current()` initially and after each call of `ops`. -/
def observe (cfg : OptionStrategy σ V) (vt : VT σ V) (e : Nat) (ops : List Op) :
    List (Option V) :=
  optCurrent vt (genOptTree cfg e).1 :: runOps vt (genOptTree cfg e).1 ops

/-- A concrete inner value tree over `Nat` with no shrink structure. -/
def vtConst : VT Nat Nat :=
  { current := fun n => n
    simplify := fun n => (n, false)
    complicate := fun n => (n, false) }

/-- A concrete inner strategy: always generates `0`, entropy untouched. -/
def innerConst : InnerStrategy Nat Nat :=
  { gen := fun e => (0, e), tree := vtConst }

/-- A second concrete inner strategy with a different generator. -/
def innerConst2 : InnerStrategy Nat Nat :=
  { gen := fun e => (7, e + 1), tree := vtConst }

/-- The configuration `weighted (1/2) innerConst` builds. -/
def cfgHalf : OptionStrategy Nat Nat :=
  { branch0 := ((float_to_weight (1/2 : ℚ)).2, Branch.noneStrategy),
    branch1 := ((float_to_weight (1/2 : ℚ)).1, Branch.mapWrapSome innerConst) }

/-- The configuration `weighted (1/2) innerConst2` builds. -/
def cfgHalf2 : OptionStrategy Nat Nat :=
  { branch0 := ((float_to_weight (1/2 : ℚ)).2, Branch.noneStrategy),
    branch1 := ((float_to_weight (1/2 : ℚ)).1, Branch.mapWrapSome innerConst2) }

/-- Inside the open interval the precondition test is false and `weighted`
returns the two-branch configuration in source order. -/
lemma weighted_eq_some (p : ℚ) (t : InnerStrategy σ V) (h0 : 0 < p) (h1 : p < 1) :
    weighted p t
      = some { branch0 := ((float_to_weight p).2, Branch.noneStrategy),
               branch1 := ((float_to_weight p).1, Branch.mapWrapSome t) } := by
  unfold weighted
  rw [if_neg]
  push_neg
  exact ⟨h0, h1⟩

/-- Positive probabilities give a present weight of at least one. -/
lemma ftw_some_pos (p : ℚ) (h0 : 0 < p) : 1 ≤ (float_to_weight p).1 := by
  have h := Rat.num_pos.mpr h0
  simp only [float_to_weight]
  omega

/-- Probabilities below one give an absent weight of at least one. -/
lemma ftw_none_pos (p : ℚ) (h1 : p < 1) : 1 ≤ (float_to_weight p).2 := by
  have h := Rat.lt_one_iff_num_lt_denom.mp h1
  simp only [float_to_weight]
  omega

/-- The weight pair is strictly monotone in the probability: a larger
probability gives a strictly larger present-to-absent weight ratio, stated by
cross-multiplication. -/
lemma ftw_mono (p q : ℚ) (h0 : 0 < p) (hpq : p < q) (h1 : q < 1) :
    (float_to_weight p).1 * (float_to_weight q).2
      < (float_to_weight q).1 * (float_to_weight p).2 := by
  have hp1 : p < 1 := hpq.trans h1
  have hq0 : 0 < q := h0.trans hpq
  have hpnum : 0 < p.num := Rat.num_pos.mpr h0
  have hqnum : 0 < q.num := Rat.num_pos.mpr hq0
  have hpden : p.num < (p.den : ℤ) := Rat.lt_one_iff_num_lt_denom.mp hp1
  have hqden : q.num < (q.den : ℤ) := Rat.lt_one_iff_num_lt_denom.mp h1
  have hlt : p.num * (q.den : ℤ) < q.num * (p.den : ℤ) := Rat.lt_def.mp hpq
  simp only [float_to_weight]
  have key : (p.num.toNat : ℤ) * (((q.den : ℤ) - q.num).toNat : ℤ)
      < (q.num.toNat : ℤ) * (((p.den : ℤ) - p.num).toNat : ℤ) := by
    rw [Int.toNat_of_nonneg hpnum.le, Int.toNat_of_nonneg hqnum.le,
        Int.toNat_of_nonneg (by omega : (0 : ℤ) ≤ (q.den : ℤ) - q.num),
        Int.toNat_of_nonneg (by omega : (0 : ℤ) ≤ (p.den : ℤ) - p.num)]
    nlinarith [hlt]
  exact_mod_cast key

/-- Iterating the option tree's simplify on a switch-exhausted present state
tracks the iteration of the inner tree's simplify. -/
lemma simplifySeq_present_closed (vt : VT σ V) :
    ∀ (n : Nat) (i : σ) (b : Bool), ∃ b',
      simplifySeq (optSimplify vt) n (OptTree.present i false b)
        = OptTree.present (simplifySeq vt.simplify n i) false b' := by
  intro n
  induction n with
  | zero => intro i b; exact ⟨b, rfl⟩
  | succ n ih =>
      intro i b
      obtain ⟨b', hb⟩ := ih (vt.simplify i).1 ((vt.simplify i).2 || b)
      exact ⟨b', hb⟩

/-- Claim C1: for every option value tree in state present(x) with the branch
switch to absent still available, the first `simplify()` call switches to the
absent branch: it reports a change, stores the inner tree untouched, and
`current()` becomes `None`. The inner value is not shrunk first: the result is
the same for every inner value-tree implementation `vt` and keeps the inner
tree verbatim. -/
theorem C1_first_simplify_switches_to_absent (vt : VT σ V) (inner : σ) (b : Bool) :
    optSimplify vt (OptTree.present inner true b)
      = (OptTree.absentViaShrink inner, true) ∧
    optCurrent vt (optSimplify vt (OptTree.present inner true b)).1 = none :=
  ⟨rfl, rfl⟩

/-- Claim C2: after a `simplify()` that performed the branch switch from
present(x) to absent, `complicate()` restores the exact saved inner tree —
`current()` is again `some x` with the very value held before the switch (not
a freshly generated one) — and the tree is back in a present state. -/
theorem C2_complicate_restores_exact_value (vt : VT σ V) (inner : σ) (b : Bool) :
    optComplicate vt (optSimplify vt (OptTree.present inner true b)).1
      = (OptTree.present inner false false, true) ∧
    optCurrent vt (optComplicate vt (optSimplify vt (OptTree.present inner true b)).1).1
      = some (vt.current inner) ∧
    optCurrent vt (optComplicate vt (optSimplify vt (OptTree.present inner true b)).1).1
      = optCurrent vt (OptTree.present inner true b) :=
  ⟨rfl, rfl, rfl⟩

/-- Claim C3: `weighted p t` fails at construction (returns `none`) for every
probability outside the open interval `(0, 1)` — in particular at `0`, `1`,
`-1/10` and `11/10` — and succeeds for every probability strictly inside. -/
theorem C3_weighted_precondition (t : InnerStrategy σ V) (p : ℚ) :
    ((p ≤ 0 ∨ 1 ≤ p) → weighted p t = none) ∧
    (0 < p → p < 1 → (weighted p t).isSome = true) := by
  constructor
  · intro h
    unfold weighted
    rw [if_pos h]
  · intro h0 h1
    rw [weighted_eq_some p t h0 h1]
    rfl

/-- Witness for claim C3 at the concrete probabilities named by the claim. -/
theorem C3_weighted_precondition_witness :
    weighted (0 : ℚ) innerConst = none ∧
    weighted (1 : ℚ) innerConst = none ∧
    weighted (-1/10 : ℚ) innerConst = none ∧
    weighted (11/10 : ℚ) innerConst = none ∧
    (weighted (1/2 : ℚ) innerConst).isSome = true :=
  ⟨(C3_weighted_precondition innerConst 0).1 (Or.inl (by norm_num)),
   (C3_weighted_precondition innerConst 1).1 (Or.inr (by norm_num)),
   (C3_weighted_precondition innerConst (-1/10)).1 (Or.inl (by norm_num)),
   (C3_weighted_precondition innerConst (11/10)).1 (Or.inr (by norm_num)),
   (C3_weighted_precondition innerConst (1/2)).2 (by norm_num) (by norm_num)⟩

/-- Claim C4: for a valid probability, `weighted p t` builds the two-branch
weighted union with branch 0 the trivial absence generator under the absent
weight and branch 1 the `WrapSome` map of the inner strategy under the present
weight; both derived weights are at least one, and the derivation is strictly
monotone in the probability (by cross-multiplied ratio comparison). -/
theorem C4_weighted_builds_union (t : InnerStrategy σ V) (p q : ℚ)
    (cfg : OptionStrategy σ V) (h0 : 0 < p) (h1 : p < 1)
    (hw : weighted p t = some cfg) :
    cfg.branch0 = ((float_to_weight p).2, Branch.noneStrategy) ∧
    cfg.branch1 = ((float_to_weight p).1, Branch.mapWrapSome t) ∧
    1 ≤ (float_to_weight p).1 ∧ 1 ≤ (float_to_weight p).2 ∧
    (p < q → q < 1 →
      (float_to_weight p).1 * (float_to_weight q).2
        < (float_to_weight q).1 * (float_to_weight p).2) := by
  rw [weighted_eq_some p t h0 h1] at hw
  obtain rfl := Option.some.inj hw
  exact ⟨rfl, rfl, ftw_some_pos p h0, ftw_none_pos p h1,
    fun hpq h1q => ftw_mono p q h0 hpq h1q⟩

/-- Witness for claim C4 at probability one half against two thirds. -/
theorem C4_weighted_builds_union_witness :
    cfgHalf.branch0 = ((float_to_weight (1/2 : ℚ)).2, Branch.noneStrategy) ∧
    cfgHalf.branch1 = ((float_to_weight (1/2 : ℚ)).1, Branch.mapWrapSome innerConst) ∧
    1 ≤ (float_to_weight (1/2 : ℚ)).1 ∧ 1 ≤ (float_to_weight (1/2 : ℚ)).2 ∧
    (float_to_weight (1/2 : ℚ)).1 * (float_to_weight (2/3 : ℚ)).2
      < (float_to_weight (2/3 : ℚ)).1 * (float_to_weight (1/2 : ℚ)).2 := by
  have h := C4_weighted_builds_union innerConst (1/2) (2/3) cfgHalf
    (by norm_num) (by norm_num)
    (weighted_eq_some (1/2 : ℚ) innerConst (by norm_num) (by norm_num))
  exact ⟨h.1, h.2.1, h.2.2.1, h.2.2.2.1, h.2.2.2.2 (by norm_num) (by norm_num)⟩

/-- Claim C5: the trivial absence generator. `new_value` always succeeds and
consumes nothing; every tree's `current()` is `None`; `simplify` and
`complicate` return `false` and leave the (stateless) tree unchanged, so the
same holds after any sequence of calls. -/
theorem C5_none_strategy_trivial (V : Type) (e : Nat) (u : Unit) :
    NoneStrategy_new_value e = (Except.ok (), e) ∧
    NoneStrategy_current V u = none ∧
    NoneStrategy_simplify u = (u, false) ∧
    NoneStrategy_complicate u = (u, false) :=
  ⟨rfl, rfl, rfl, rfl⟩

/-- Claim C6: `of t` is literally `weighted (1/2) t`: the same construction,
hence the same configuration and identical observable generation and shrink
behavior for every entropy state and call sequence. -/
theorem C6_of_equiv_weighted_half (t : InnerStrategy σ V)
    (cfg₁ cfg₂ : OptionStrategy σ V)
    (h₁ : of t = some cfg₁) (h₂ : weighted (1/2 : ℚ) t = some cfg₂) :
    of t = weighted (1/2 : ℚ) t ∧ cfg₁ = cfg₂ ∧
    ∀ (vt : VT σ V) (e : Nat) (ops : List Op),
      observe cfg₁ vt e ops = observe cfg₂ vt e ops := by
  have hc : cfg₁ = cfg₂ :=
    Option.some.inj (h₁.symm.trans (h₂ : of t = some cfg₂))
  subst hc
  exact ⟨rfl, rfl, fun vt e ops => rfl⟩

/-- Witness for claim C6 at a concrete inner strategy, entropy state and call
sequence. -/
theorem C6_of_equiv_weighted_half_witness :
    of innerConst = weighted (1/2 : ℚ) innerConst ∧ cfgHalf = cfgHalf ∧
    observe cfgHalf vtConst 3 [Op.simplify] = observe cfgHalf vtConst 3 [Op.simplify] :=
  have h := C6_of_equiv_weighted_half innerConst cfgHalf cfgHalf
    (weighted_eq_some (1/2 : ℚ) innerConst (by norm_num) (by norm_num))
    (weighted_eq_some (1/2 : ℚ) innerConst (by norm_num) (by norm_num))
  ⟨h.1, h.2.1, h.2.2 vtConst 3 [Op.simplify]⟩

/-- Claim C7: `complicate()` with no pending successful simplify to undo is
not an error: it returns `false` and leaves the tree unchanged; in particular
a second `complicate()` right after the one that restored the present state,
with no intervening simplify attempt, is a no-op returning `false`. -/
theorem C7_complicate_noop_without_pending (vt : VT σ V) (s : OptTree σ)
    (h : noPending s = true) :
    optComplicate vt s = (s, false) ∧
    (∀ (inner : σ) (b : Bool),
      optComplicate vt (optComplicate vt (optSimplify vt (OptTree.present inner true b)).1).1
        = ((optComplicate vt (optSimplify vt (OptTree.present inner true b)).1).1,
            false)) := by
  constructor
  · cases s with
    | absent => rfl
    | present inner sw b =>
        cases b with
        | false => rfl
        | true => simp [noPending] at h
    | absentViaShrink saved => simp [noPending] at h
  · intro inner b
    rfl

/-- Witness for claim C7 on the absent tree and a concrete restored-present
double complicate. -/
theorem C7_complicate_noop_without_pending_witness :
    optComplicate vtConst (OptTree.absent : OptTree Nat) = (OptTree.absent, false) ∧
    optComplicate vtConst (optComplicate vtConst (optSimplify vtConst (OptTree.present 4 true false)).1).1
      = ((optComplicate vtConst (optSimplify vtConst (OptTree.present 4 true false)).1).1,
          false) :=
  have h := C7_complicate_noop_without_pending vtConst OptTree.absent rfl
  ⟨h.1, h.2 4 false⟩

/-- Claim C8: when the inner tree's own shrink loop terminates from every
state, the option tree's loop "call simplify until it returns false"
terminates, ending with `current()` equal to `None` or in a present state
whose inner tree is locally minimal (its simplify reports no change). -/
theorem C8_simplify_loop_terminates (vt : VT σ V) (s : OptTree σ)
    (h : ∀ t : σ, exhausts vt.simplify t) :
    ∃ n, (optSimplify vt (simplifySeq (optSimplify vt) n s)).2 = false ∧
      (optCurrent vt (simplifySeq (optSimplify vt) n s) = none ∨
        ∃ i b, simplifySeq (optSimplify vt) n s = OptTree.present i false b ∧
          (vt.simplify i).2 = false) := by
  cases s with
  | absent => exact ⟨0, rfl, Or.inl rfl⟩
  | absentViaShrink saved => exact ⟨0, rfl, Or.inl rfl⟩
  | present inner sw b =>
      cases sw with
      | true => exact ⟨1, rfl, Or.inl rfl⟩
      | false =>
          obtain ⟨n, hn⟩ := h inner
          obtain ⟨b', hb⟩ := simplifySeq_present_closed vt n inner b
          refine ⟨n, ?_, Or.inr ⟨simplifySeq vt.simplify n inner, b', hb, hn⟩⟩
          rw [hb]
          exact hn

/-- Witness for claim C8 with a shrink-free concrete inner tree. -/
theorem C8_simplify_loop_terminates_witness :
    ∃ n, (optSimplify vtConst (simplifySeq (optSimplify vtConst) n (OptTree.present 5 false false))).2 = false ∧
      (optCurrent vtConst (simplifySeq (optSimplify vtConst) n (OptTree.present 5 false false)) = none ∨
        ∃ i b, simplifySeq (optSimplify vtConst) n (OptTree.present 5 false false)
            = OptTree.present i false b ∧
          (vtConst.simplify i).2 = false) :=
  C8_simplify_loop_terminates vtConst (OptTree.present 5 false false)
    (fun _ => ⟨0, rfl⟩)

/-- Claim C9: generation and shrinking are deterministic: two runs from the
same entropy state with the same call sequence observe identical sequences of
`current()` values. In this embedding every operation is a pure function of
the configuration, the entropy state and the call list, so equal inputs give
equal observation lists. -/
theorem C9_runs_deterministic (cfg : OptionStrategy σ V) (vt : VT σ V)
    (e₁ e₂ : Nat) (ops₁ ops₂ : List Op) (he : e₁ = e₂) (hops : ops₁ = ops₂) :
    observe cfg vt e₁ ops₁ = observe cfg vt e₂ ops₂ := by
  subst he
  subst hops
  rfl

/-- Witness for claim C9 at a concrete configuration, entropy state and call
sequence. -/
theorem C9_runs_deterministic_witness :
    observe cfgHalf vtConst 5 [Op.simplify, Op.complicate]
      = observe cfgHalf vtConst 5 [Op.simplify, Op.complicate] :=
  C9_runs_deterministic cfgHalf vtConst 5 5 [Op.simplify, Op.complicate]
    [Op.simplify, Op.complicate] rfl rfl

/-- Claim C10: when generation picks the absent branch, the produced tree is
the bare absent state, storing no inner value tree, and the inner strategy is
not invoked (any two configurations built from the same probability but
different inner strategies generate the identical result); every generated
tree is either that bare absent state or a fresh present state holding an
inner tree from the present branch. -/
theorem C10_absent_generation_stores_no_inner (p : ℚ) (t t' : InnerStrategy σ V)
    (cfg cfg' : OptionStrategy σ V) (e : Nat)
    (h0 : 0 < p) (h1 : p < 1)
    (hw : weighted p t = some cfg) (hw' : weighted p t' = some cfg')
    (hpick : e % (cfg.branch0.1 + cfg.branch1.1) < cfg.branch0.1) :
    (genOptTree cfg e).1 = OptTree.absent ∧
    hasInner (genOptTree cfg e).1 = false ∧
    genOptTree cfg e = genOptTree cfg' e ∧
    (∀ e2 : Nat, (genOptTree cfg e2).1 = OptTree.absent ∨
      ∃ s2, (genOptTree cfg e2).1 = OptTree.present s2 true false) := by
  rw [weighted_eq_some p t h0 h1] at hw
  rw [weighted_eq_some p t' h0 h1] at hw'
  obtain rfl := Option.some.inj hw
  obtain rfl := Option.some.inj hw'
  have hp2 : e % ((float_to_weight p).2 + (float_to_weight p).1)
      < (float_to_weight p).2 := hpick
  have habs : genOptTree
      { branch0 := ((float_to_weight p).2, Branch.noneStrategy),
        branch1 := ((float_to_weight p).1, Branch.mapWrapSome t) } e
      = (OptTree.absent, e / ((float_to_weight p).2 + (float_to_weight p).1)) := by
    simp only [genOptTree, genBranch]
    rw [if_pos hp2]
  have habs' : genOptTree
      { branch0 := ((float_to_weight p).2, Branch.noneStrategy),
        branch1 := ((float_to_weight p).1, Branch.mapWrapSome t') } e
      = (OptTree.absent, e / ((float_to_weight p).2 + (float_to_weight p).1)) := by
    simp only [genOptTree, genBranch]
    rw [if_pos hp2]
  refine ⟨by rw [habs], by rw [habs]; rfl, by rw [habs, habs'], ?_⟩
  intro e2
  simp only [genOptTree, genBranch]
  by_cases hc : e2 % ((float_to_weight p).2 + (float_to_weight p).1)
      < (float_to_weight p).2
  · rw [if_pos hc]
    exact Or.inl rfl
  · rw [if_neg hc]
    exact Or.inr
      ⟨(t.gen (e2 / ((float_to_weight p).2 + (float_to_weight p).1))).1, rfl⟩

/-- Witness for claim C10 at probability one half, two distinct inner
strategies and entropy state zero (which always selects the absent branch). -/
theorem C10_absent_generation_stores_no_inner_witness :
    (genOptTree cfgHalf 0).1 = OptTree.absent ∧
    hasInner (genOptTree cfgHalf 0).1 = false ∧
    genOptTree cfgHalf 0 = genOptTree cfgHalf2 0 ∧
    ((genOptTree cfgHalf 1).1 = OptTree.absent ∨
      ∃ s2, (genOptTree cfgHalf 1).1 = OptTree.present s2 true false) :=
  have hpick : 0 % (cfgHalf.branch0.1 + cfgHalf.branch1.1) < cfgHalf.branch0.1 := by
    have h := ftw_none_pos (1/2 : ℚ) (by norm_num)
    simpa [cfgHalf] using h
  have h := C10_absent_generation_stores_no_inner (1/2 : ℚ) innerConst innerConst2
    cfgHalf cfgHalf2 0 (by norm_num) (by norm_num)
    (weighted_eq_some (1/2 : ℚ) innerConst (by norm_num) (by norm_num))
    (weighted_eq_some (1/2 : ℚ) innerConst2 (by norm_num) (by norm_num))
    hpick
  ⟨h.1, h.2.1, h.2.2.1, h.2.2.2 1⟩

end PropOption
